import Mathlib

/-!
# Verification of the zakrepbot relay engine

A shallow embedding of the message-relay bot (`bot.py`, `utils/bot_state.py`,
`utils/message_utils.py`, `database/repository.py`) and proofs about it.

The persistent store (`database/repository.py`) is modelled as association
lists standing for the SQLite tables; `INSERT OR REPLACE` on a primary key
becomes "drop the rows with that key, append the new row", `DELETE` becomes a
filter.  The messaging transport is modelled by an environment of oracles
saying which source messages still resolve and which per-chat operations
(forward / pin / unpin) raise errors.  Asyncio tasks are modelled as records
with an id and a status (`running`, `cancelRequested`, `finished`); note that
`Task.cancel()` only requests cancellation, the task counts as done only once
it has actually finished, which is exactly the behaviour of
`asyncio.Task.done()` observed by the guard in `_start_rotation_task`.
-/

namespace Zakrep

/-! ## Store rows (repository.py)

Destinations (`target_chats.chat_id`) are integers; source channels
(`last_messages.channel_id`) are strings.  The source keys the
`pinned_messages` table by `str(chat_id)`; since `str` is injective on
integers we key the modelled table by the integer chat id directly. -/

/-- Model of `INSERT OR REPLACE` into a table whose first column is the primary key. -/
def upsert {α : Type} [BEq α] (rows : List (α × Nat)) (k : α) (v : Nat) :
    List (α × Nat) :=
  rows.filter (fun r => !(r.1 == k)) ++ [(k, v)]

/-- Model of `SELECT` of the value column by primary key. -/
def getVal {α : Type} [BEq α] (rows : List (α × Nat)) (k : α) : Option Nat :=
  (rows.find? (fun r => r.1 == k)).map (·.2)

/-- Model of `Repository.save_pinned_message` (repository.py:211-223): `INSERT OR
REPLACE INTO pinned_messages` keyed by chat id. -/
def save_pinned_message (rows : List (Int × Nat)) (chat_id : Int)
    (message_id : Nat) : List (Int × Nat) :=
  upsert rows chat_id message_id

/-- Model of `Repository.delete_pinned_message` (repository.py:246-254): `DELETE FROM
pinned_messages WHERE chat_id = ?`. -/
def delete_pinned_message (rows : List (Int × Nat)) (chat_id : Int) :
    List (Int × Nat) :=
  rows.filter (fun r => !(r.1 == chat_id))

/-- Model of `Repository.save_last_message` (repository.py:164-176): `INSERT OR
REPLACE INTO last_messages` keyed by channel id. -/
def save_last_message (rows : List (String × Nat)) (channel_id : String)
    (message_id : Nat) : List (String × Nat) :=
  upsert rows channel_id message_id

/-- The writes the codebase ever performs on the `pinned_messages` table:
`save_pinned_message` (from publishing) and `delete_pinned_message` (from
unpinning / destination removal). -/
inductive PinOp where
  | save (chat_id : Int) (message_id : Nat)
  | del (chat_id : Int)

/-- Apply one `pinned_messages` write. -/
def applyPinOp (rows : List (Int × Nat)) : PinOp → List (Int × Nat)
  | .save c m => save_pinned_message rows c m
  | .del c => delete_pinned_message rows c

/-- Run a sequence of `pinned_messages` writes against the freshly initialised
(empty) table of `Repository.init_db`. -/
def applyPinOps (ops : List PinOp) : List (Int × Nat) :=
  ops.foldl applyPinOp []

/-! ### Generic association-list lemmas -/

theorem filter_and_length_le {α : Type} (p q : α → Bool) :
    ∀ l : List α, (l.filter (fun a => p a && q a)).length ≤ (l.filter p).length := by
  intro l
  induction l with
  | nil => simp
  | cons a t ih =>
    by_cases hp : p a = true
    · by_cases hq : q a = true
      · simp only [List.filter_cons, hp, hq, Bool.and_self, if_true, List.length_cons]
        omega
      · simp only [List.filter_cons, hp, hq, Bool.and_false, Bool.false_eq_true, if_false,
          if_true, List.length_cons]
        omega
    · have hpq : (p a && q a) = false := by
        cases hp' : p a
        · simp
        · exact absurd hp' hp
      simp only [List.filter_cons, hp, hpq, Bool.false_eq_true, if_false]
      exact ih

theorem filter_filter_length_le {α : Type} (p q : α → Bool) :
    ∀ l : List α, ((l.filter q).filter p).length ≤ (l.filter p).length := by
  intro l
  rw [List.filter_filter]
  exact filter_and_length_le p q l

theorem filter_upsert_self {α : Type} [BEq α] [LawfulBEq α]
    (rows : List (α × Nat)) (k : α) (v : Nat) :
    (upsert rows k v).filter (fun r => r.1 == k) = [(k, v)] := by
  unfold upsert
  rw [List.filter_append]
  have h1 : (rows.filter (fun r => !(r.1 == k))).filter (fun r => r.1 == k) = [] := by
    rw [List.filter_filter]
    apply List.filter_eq_nil_iff.mpr
    intro a _
    by_cases h : a.1 == k <;> simp [h]
  rw [h1]
  simp

theorem filter_upsert_ne {α : Type} [BEq α] [LawfulBEq α]
    (rows : List (α × Nat)) (k k' : α) (v : Nat) (hne : k' ≠ k) :
    (upsert rows k v).filter (fun r => r.1 == k') =
      (rows.filter (fun r => !(r.1 == k))).filter (fun r => r.1 == k') := by
  unfold upsert
  rw [List.filter_append]
  have h2 : ([(k, v)].filter (fun r : α × Nat => r.1 == k')) = [] := by
    simp [List.filter_cons]
    intro h
    exact absurd h.symm hne
  rw [h2, List.append_nil]

/-! ### C1: at most one pinned record per destination -/

theorem pinned_count_le_one_step (rows : List (Int × Nat)) (op : PinOp)
    (h : ∀ chat : Int, ((rows.filter (fun r => r.1 == chat)).length ≤ 1)) :
    ∀ chat : Int, (((applyPinOp rows op).filter (fun r => r.1 == chat)).length ≤ 1) := by
  intro chat
  cases op with
  | save c m =>
    by_cases hc : chat = c
    · subst hc
      rw [show applyPinOp rows (.save chat m) = upsert rows chat m from rfl,
        filter_upsert_self]
      simp
    · rw [show applyPinOp rows (.save c m) = upsert rows c m from rfl,
        filter_upsert_ne rows c chat m hc]
      calc ((rows.filter (fun r => !(r.1 == c))).filter (fun r => r.1 == chat)).length
          ≤ (rows.filter (fun r => r.1 == chat)).length :=
            filter_filter_length_le _ _ rows
        _ ≤ 1 := h chat
  | del c =>
    calc (((rows.filter (fun r => !(r.1 == c))).filter (fun r => r.1 == chat)).length)
        ≤ (rows.filter (fun r => r.1 == chat)).length := filter_filter_length_le _ _ rows
      _ ≤ 1 := h chat

theorem pinned_count_le_one_fold :
    ∀ (ops : List PinOp) (rows : List (Int × Nat)),
      (∀ chat : Int, ((rows.filter (fun r => r.1 == chat)).length ≤ 1)) →
      ∀ chat : Int, (((ops.foldl applyPinOp rows).filter (fun r => r.1 == chat)).length ≤ 1) := by
  intro ops
  induction ops with
  | nil => intro rows h chat; simpa using h chat
  | cons op t ih =>
    intro rows h chat
    simp only [List.foldl_cons]
    exact ih (applyPinOp rows op) (pinned_count_le_one_step rows op h) chat

/-- C1.  After any sequence of `pinned_messages` writes (publish records,
unpin deletions, destination removals) starting from the freshly initialised
table, at most one pinned-message row is recorded per destination chat; and
`save_pinned_message` replaces the rows for its chat rather than adding to
them: afterwards the rows for that chat are exactly the single new row. -/
theorem pinned_at_most_one_per_chat :
    (∀ (ops : List PinOp) (chat : Int),
      ((applyPinOps ops).filter (fun r => r.1 == chat)).length ≤ 1) ∧
    (∀ (rows : List (Int × Nat)) (chat : Int) (m : Nat),
      (save_pinned_message rows chat m).filter (fun r => r.1 == chat) = [(chat, m)]) := by
  constructor
  · intro ops chat
    exact pinned_count_le_one_fold ops [] (by intro c; simp) chat
  · intro rows chat m
    exact filter_upsert_self rows chat m

/-! ## Item Locator (`utils/message_utils.py`, `find_latest_message`)

The probe "forward the message to the owner and see whether it raises
`message not found`" is abstracted by a boolean oracle `ex : Nat → Bool` on
message ids of the probed channel (both `message not found` and any other
probe error leave `valid_id` untouched in the source, so a single boolean
per id is faithful).  Python truthiness of `last_saved_id` / `valid_id`
(`None` and `0` are both falsy) is modelled by `truthy`. -/

/-- Python truthiness of an optional message id. -/
def truthy : Option Nat → Bool
  | none => false
  | some 0 => false
  | some (_ + 1) => true

/-- The search start point (message_utils.py:24-31): `last_saved_id + 50`
when a truthy saved id is given, else the default `1000`. -/
def startId : Option Nat → Nat
  | some id => if id ≠ 0 then id + 50 else 1000
  | none => 1000

/-- Forward scan (message_utils.py:39-69): probe `start_id, ..., start_id+199`
in ascending order, remembering the **last** id that resolved. -/
def scanForward (ex : Nat → Bool) (s : Nat) : Option Nat :=
  (List.range 200).foldl (fun acc k => if ex (s + k) then some (s + k) else acc) none

/-- Backward scan (message_utils.py:71-103): probe
`start_id, start_id-1, ..., max(1, start_id-200)+1` and take the **first** id
that resolves. -/
def scanBackward (ex : Nat → Bool) (s : Nat) : Option Nat :=
  ((List.range (s - max 1 (s - 200))).map (fun k => s - k)).find? ex

/-- Model of `find_latest_message` (message_utils.py:7-117): forward scan from the
start point, falling back to the backward scan, returning `None` when both
scans fail (or return the falsy id 0). -/
def find_latest_message (ex : Nat → Bool) (last_saved_id : Option Nat) : Option Nat :=
  let s := startId last_saved_id
  let v1 := scanForward ex s
  let v := if truthy v1 then v1 else scanBackward ex s
  if truthy v then v else none

theorem foldl_probe_some (ex : Nat → Bool) (s : Nat) :
    ∀ (l : List Nat) (acc : Option Nat) (r : Nat),
      l.foldl (fun acc k => if ex (s + k) then some (s + k) else acc) acc = some r →
      acc = some r ∨ ∃ k, k ∈ l ∧ r = s + k ∧ ex (s + k) = true := by
  intro l
  induction l with
  | nil => intro acc r h; exact .inl h
  | cons a t ih =>
    intro acc r h
    simp only [List.foldl_cons] at h
    rcases ih _ r h with h1 | ⟨k, hk, hr, hex⟩
    · by_cases ha : ex (s + a) = true
      · rw [if_pos ha] at h1
        right
        exact ⟨a, List.mem_cons_self a t, (Option.some.injEq _ _ ▸ h1).symm, ha⟩
      · rw [if_neg ha] at h1
        exact .inl h1
    · exact .inr ⟨k, List.mem_cons_of_mem a hk, hr, hex⟩

theorem foldl_probe_none (ex : Nat → Bool) (s : Nat) :
    ∀ (l : List Nat), (∀ k ∈ l, ex (s + k) = false) →
      l.foldl (fun acc k => if ex (s + k) then some (s + k) else acc) none = none := by
  intro l
  induction l with
  | nil => intro _; rfl
  | cons a t ih =>
    intro h
    simp only [List.foldl_cons, h a (List.mem_cons_self a t), Bool.false_eq_true, if_false]
    exact ih (fun k hk => h k (List.mem_cons_of_mem a hk))

theorem scanForward_some (ex : Nat → Bool) (s r : Nat)
    (h : scanForward ex s = some r) :
    ex r = true ∧ s ≤ r ∧ r < s + 200 := by
  rcases foldl_probe_some ex s (List.range 200) none r h with h1 | ⟨k, hk, hr, hex⟩
  · exact absurd h1 (by simp)
  · rw [List.mem_range] at hk
    refine ⟨hr ▸ hex, ?_, ?_⟩ <;> omega

theorem scanForward_none (ex : Nat → Bool) (s : Nat)
    (h : ∀ k, k < 200 → ex (s + k) = false) : scanForward ex s = none := by
  exact foldl_probe_none ex s (List.range 200) (fun k hk => h k (List.mem_range.mp hk))

theorem scanBackward_some (ex : Nat → Bool) (s r : Nat)
    (h : scanBackward ex s = some r) :
    ex r = true ∧ max 1 (s - 200) < r ∧ r ≤ s := by
  have hex := List.find?_some h
  have hmem := List.mem_of_find?_eq_some h
  rw [List.mem_map] at hmem
  obtain ⟨k, hk, hr⟩ := hmem
  rw [List.mem_range] at hk
  refine ⟨hex, ?_, ?_⟩ <;> omega

theorem scanBackward_none (ex : Nat → Bool) (s : Nat)
    (h : ∀ i, max 1 (s - 200) < i → i ≤ s → ex i = false) : scanBackward ex s = none := by
  apply List.find?_eq_none.mpr
  intro a ha
  rw [List.mem_map] at ha
  obtain ⟨k, hk, hr⟩ := ha
  rw [List.mem_range] at hk
  rw [h a (by omega) (by omega)]
  simp

/-- Any id returned by the locator resolves (its probe succeeded) and is a
positive (truthy) id. -/
theorem find_latest_message_some (ex : Nat → Bool) (hint : Option Nat) (r : Nat)
    (h : find_latest_message ex hint = some r) : ex r = true ∧ 1 ≤ r := by
  simp only [find_latest_message] at h
  set s := startId hint with hs
  by_cases h1 : truthy (scanForward ex s) = true
  · rw [if_pos h1] at h
    by_cases h2 : truthy (scanForward ex s) = true
    · rw [if_pos h2] at h
      have := (scanForward_some ex s r h).1
      refine ⟨this, ?_⟩
      cases hv : scanForward ex s with
      | none => rw [hv] at h; cases h
      | some v =>
        rw [hv] at h h1
        cases v with
        | zero => simp [truthy] at h1
        | succ n => cases h; omega
    · exact absurd h1 h2
  · rw [if_neg h1] at h
    by_cases h2 : truthy (scanBackward ex s) = true
    · rw [if_pos h2] at h
      have := (scanBackward_some ex s r h).1
      refine ⟨this, ?_⟩
      cases hv : scanBackward ex s with
      | none => rw [hv] at h; cases h
      | some v =>
        rw [hv] at h h2
        cases v with
        | zero => simp [truthy] at h2
        | succ n => cases h; omega
    · rw [if_neg h2] at h; cases h

/-- C10.  With no last-known id the locator starts at the fixed default 1000,
probing forward 1000..1199 and then backward 1000..801: every id it can
return lies in [801, 1199], and if no id in that range resolves it returns
`none` — an existing message outside the probed window is never found. -/
theorem find_latest_default_range (ex : Nat → Bool) :
    (∀ r, find_latest_message ex none = some r → 801 ≤ r ∧ r ≤ 1199) ∧
    ((∀ i, 801 ≤ i → i ≤ 1199 → ex i = false) → find_latest_message ex none = none) := by
  constructor
  · intro r h
    simp only [find_latest_message, startId] at h
    by_cases h1 : truthy (scanForward ex 1000) = true
    · rw [if_pos h1, if_pos h1] at h
      have := scanForward_some ex 1000 r h
      omega
    · rw [if_neg h1] at h
      by_cases h2 : truthy (scanBackward ex 1000) = true
      · rw [if_pos h2] at h
        have := scanBackward_some ex 1000 r h
        omega
      · rw [if_neg h2] at h; cases h
  · intro h
    have hf : scanForward ex 1000 = none :=
      scanForward_none ex 1000 (fun k hk => h (1000 + k) (by omega) (by omega))
    have hb : scanBackward ex 1000 = none :=
      scanBackward_none ex 1000 (fun i h1 h2 => h i (by omega) (by omega))
    simp [find_latest_message, startId, hf, hb, truthy]

/-- Witness for C10: with only message 1100 resolvable the locator finds it,
inside the probed window; with nothing resolvable in [801, 1199] it reports
`none`. -/
theorem find_latest_default_range_witness :
    (801 ≤ 1100 ∧ 1100 ≤ 1199) ∧ find_latest_message (fun _ => false) none = none := by
  constructor
  · exact (find_latest_default_range (fun i => i == 1100)).1 1100 (by decide)
  · exact (find_latest_default_range (fun _ => false)).2 (fun _ _ _ => rfl)

/-! ## Relay engine: `BotContext.forward_and_pin_message`
(`utils/bot_state.py:310-406`)

The transport is abstracted by an environment: `exMsg channel msg` says
whether forwarding message `msg` from `channel` resolves (otherwise the
transport raises a `message not found`-class error); `fwdErr chat` injects a
transient (non-not-found) error when forwarding into `chat`; `pinErr` /
`unpinErr` inject errors for the pin / unpin calls in `chat`; `fwdId chat
msg` is the message id the forwarded copy receives inside `chat`. -/

/-- The database tables touched by the relay engine (repository.py). -/
structure Store where
  target_chats : List Int
  last_messages : List (String × Nat)
  pinned_messages : List (Int × Nat)
  forward_stats : List Nat
deriving DecidableEq

/-- Transport oracle. -/
structure Env where
  exMsg : String → Nat → Bool
  fwdErr : Int → Bool
  pinErr : Int → Bool
  unpinErr : Int → Bool
  fwdId : Int → Nat → Nat

/-- Outcome of the per-destination loop: either the loop ran to the end
(`finished`), or a not-found error surfaced and the function is about to
leave the loop through the locator branch (`stale`). -/
inductive PassOutcome where
  | finished (success : Bool) (st : Store) (attempted : List Int)
  | stale (st : Store) (attempted : List Int)

/-- The `for chat_id in target_chats` body (bot_state.py:322-398): read the
previous pinned record, attempt the forward (a not-found error exits the
whole operation into the locator branch; a transient error is logged and the
loop continues), unpin the previous record best-effort, pin the forwarded
copy and record it (`save_pinned_message`); a pin failure still counts the
chat as successfully delivered. -/
def processChats (env : Env) (channel : String) (msg : Nat) :
    List Int → Store → Bool → List Int → PassOutcome
  | [], st, success, att => .finished success st att
  | chat :: rest, st, success, att =>
    if env.exMsg channel msg then
      if env.fwdErr chat then
        processChats env channel msg rest st success (att ++ [chat])
      else if env.pinErr chat then
        processChats env channel msg rest st true (att ++ [chat])
      else
        processChats env channel msg rest
          { st with pinned_messages :=
              save_pinned_message st.pinned_messages chat (env.fwdId chat msg) }
          true (att ++ [chat])
    else
      .stale st (att ++ [chat])

theorem processChats_resolvable (env : Env) (channel : String) (msg : Nat)
    (hex : env.exMsg channel msg = true) :
    ∀ (chats : List Int) (st : Store) (success : Bool) (att : List Int),
      ∃ ok st2, processChats env channel msg chats st success att =
          .finished ok st2 (att ++ chats) ∧
        st2.target_chats = st.target_chats ∧
        st2.last_messages = st.last_messages ∧
        st2.forward_stats = st.forward_stats := by
  intro chats
  induction chats with
  | nil =>
    intro st success att
    exact ⟨success, st, by simp [processChats], rfl, rfl, rfl⟩
  | cons c rest ih =>
    intro st success att
    by_cases hf : env.fwdErr c = true
    · obtain ⟨ok, st2, heq, h1, h2, h3⟩ := ih st success (att ++ [c])
      exact ⟨ok, st2, by simp only [processChats, hex, if_true, hf, heq,
        List.append_assoc, List.singleton_append], h1, h2, h3⟩
    · by_cases hp : env.pinErr c = true
      · obtain ⟨ok, st2, heq, h1, h2, h3⟩ := ih st true (att ++ [c])
        exact ⟨ok, st2, by simp only [processChats, hex, if_true, hf,
          Bool.false_eq_true, if_false, hp, heq, List.append_assoc,
          List.singleton_append], h1, h2, h3⟩
      · obtain ⟨ok, st2, heq, h1, h2, h3⟩ := ih
          { st with pinned_messages :=
              save_pinned_message st.pinned_messages c (env.fwdId c msg) }
          true (att ++ [c])
        exact ⟨ok, st2, by simp only [processChats, hex, if_true, hf,
          Bool.false_eq_true, if_false, hp, heq, List.append_assoc,
          List.singleton_append], h1, h2, h3⟩

theorem processChats_not_resolvable (env : Env) (channel : String) (msg : Nat)
    (hex : env.exMsg channel msg = false) (c : Int) (rest : List Int)
    (st : Store) (success : Bool) (att : List Int) :
    processChats env channel msg (c :: rest) st success att = .stale st (att ++ [c]) := by
  simp [processChats, hex]

theorem processChats_stale_exMsg {env : Env} {channel : String} {msg : Nat}
    {chats : List Int} {st st2 : Store} {success : Bool} {att att2 : List Int}
    (h : processChats env channel msg chats st success att = .stale st2 att2) :
    env.exMsg channel msg = false := by
  cases hex : env.exMsg channel msg
  · rfl
  · obtain ⟨ok, st3, heq, -, -, -⟩ :=
      processChats_resolvable env channel msg hex chats st success att
    rw [heq] at h
    cases h

/-- Result of one whole `forward_and_pin_message` call: the returned boolean,
the store after all writes, the chats a delivery was attempted into, and how
many times the Item Locator was invoked. -/
structure FwdResult where
  ok : Bool
  store : Store
  attempted : List Int
  locCalls : Nat
deriving DecidableEq

/-- Model of `BotContext.forward_and_pin_message` (bot_state.py:310-406).  Empty
destination list returns `False` at once.  A not-found error inside the loop
invokes `find_latest_message` on the same channel with the stale id as hint;
a truthy, different id is recorded via `save_last_message` and the whole call
is retried recursively with it, otherwise the call returns `False`. -/
def forward_and_pin_message (env : Env) (st : Store) (channel : String)
    (msg : Nat) : FwdResult :=
  if st.target_chats = [] then ⟨false, st, [], 0⟩
  else
    match hpc : processChats env channel msg st.target_chats st false [] with
    | .finished ok st2 att => ⟨ok, st2, att, 0⟩
    | .stale st2 att =>
      match hloc : find_latest_message (env.exMsg channel) (some msg) with
      | some newId =>
        if newId ≠ 0 ∧ newId ≠ msg then
          let st3 := { st2 with
            last_messages := save_last_message st2.last_messages channel newId }
          let r := forward_and_pin_message env st3 channel newId
          ⟨r.ok, r.store, att ++ r.attempted, 1 + r.locCalls⟩
        else ⟨false, st2, att, 1⟩
      | none => ⟨false, st2, att, 1⟩
termination_by (if env.exMsg channel msg = true then 0 else 1)
decreasing_by
  have h1 : env.exMsg channel msg = false := processChats_stale_exMsg hpc
  have h2 : env.exMsg channel newId = true :=
    (find_latest_message_some (env.exMsg channel) (some msg) newId hloc).1
  simp [h1, h2]

/-! ### Lookup lemmas for the store tables -/

theorem find?_append_none {β : Type} (p : β → Bool) :
    ∀ (l1 l2 : List β), l1.find? p = none → (l1 ++ l2).find? p = l2.find? p := by
  intro l1
  induction l1 with
  | nil => intro l2 h; simp
  | cons a t ih =>
    intro l2 h
    by_cases hp : p a = true
    · rw [List.find?_cons_of_pos _ hp] at h; cases h
    · rw [List.find?_cons_of_neg _ hp] at h
      rw [List.cons_append, List.find?_cons_of_neg _ hp]
      exact ih l2 h

theorem find?_key_filter_ne {α : Type} [BEq α] [LawfulBEq α]
    (rows : List (α × Nat)) (k : α) :
    (rows.filter (fun r => !(r.1 == k))).find? (fun r => r.1 == k) = none := by
  apply List.find?_eq_none.mpr
  intro x hx
  have hmem := List.of_mem_filter hx
  simp only [Bool.not_eq_true'] at hmem
  simp [hmem]

theorem getVal_upsert_self {α : Type} [BEq α] [LawfulBEq α]
    (rows : List (α × Nat)) (k : α) (v : Nat) :
    getVal (upsert rows k v) k = some v := by
  unfold getVal upsert
  rw [find?_append_none _ _ _ (find?_key_filter_ne rows k)]
  simp

/-! ### Unfolding lemmas for `forward_and_pin_message` -/

theorem fwdpin_empty (env : Env) (st : Store) (channel : String) (msg : Nat)
    (h : st.target_chats = []) :
    forward_and_pin_message env st channel msg = ⟨false, st, [], 0⟩ := by
  rw [forward_and_pin_message.eq_def, if_pos h]

theorem fwdpin_resolvable (env : Env) (st : Store) (channel : String) (msg : Nat)
    (hex : env.exMsg channel msg = true) :
    (forward_and_pin_message env st channel msg).locCalls = 0 ∧
    (forward_and_pin_message env st channel msg).store.last_messages = st.last_messages ∧
    (st.target_chats ≠ [] →
      (forward_and_pin_message env st channel msg).attempted = st.target_chats) := by
  by_cases hemp : st.target_chats = []
  · rw [fwdpin_empty env st channel msg hemp]
    exact ⟨rfl, rfl, fun h => absurd hemp h⟩
  · obtain ⟨ok, st2, heq, _, h2, _⟩ :=
      processChats_resolvable env channel msg hex st.target_chats st false []
    rw [forward_and_pin_message.eq_def, if_neg hemp]
    split
    next ok2 st2' att hpc2 =>
      rw [heq] at hpc2
      injection hpc2 with e1 e2 e3
      subst e1; subst e2; subst e3
      exact ⟨rfl, h2, fun _ => by simp⟩
    next st2' att hpc2 =>
      rw [heq] at hpc2
      cases hpc2

theorem fwdpin_stale_none (env : Env) (st : Store) (channel : String) (msg : Nat)
    (c : Int) (rest : List Int) (hcs : st.target_chats = c :: rest)
    (hex : env.exMsg channel msg = false)
    (hloc : find_latest_message (env.exMsg channel) (some msg) = none) :
    forward_and_pin_message env st channel msg = ⟨false, st, [c], 1⟩ := by
  have hne : st.target_chats ≠ [] := by rw [hcs]; simp
  rw [forward_and_pin_message.eq_def, if_neg hne]
  have hstale := processChats_not_resolvable env channel msg hex c rest st false []
  rw [← hcs] at hstale
  split
  next ok2 st2 att hpc2 => rw [hstale] at hpc2; cases hpc2
  next st2 att hpc2 =>
    rw [hstale] at hpc2
    injection hpc2 with e1 e2
    subst e1; subst e2
    split
    next newId hloc2 => rw [hloc] at hloc2; cases hloc2
    next hloc2 => simp

theorem fwdpin_stale_some (env : Env) (st : Store) (channel : String) (msg : Nat)
    (c : Int) (rest : List Int) (newId : Nat)
    (hcs : st.target_chats = c :: rest)
    (hex : env.exMsg channel msg = false)
    (hloc : find_latest_message (env.exMsg channel) (some msg) = some newId)
    (h0 : newId ≠ 0) (hm : newId ≠ msg) :
    forward_and_pin_message env st channel msg =
      ⟨(forward_and_pin_message env
          { st with last_messages := save_last_message st.last_messages channel newId }
          channel newId).ok,
       (forward_and_pin_message env
          { st with last_messages := save_last_message st.last_messages channel newId }
          channel newId).store,
       [c] ++ (forward_and_pin_message env
          { st with last_messages := save_last_message st.last_messages channel newId }
          channel newId).attempted,
       1 + (forward_and_pin_message env
          { st with last_messages := save_last_message st.last_messages channel newId }
          channel newId).locCalls⟩ := by
  have hne : st.target_chats ≠ [] := by rw [hcs]; simp
  rw [forward_and_pin_message.eq_def, if_neg hne]
  have hstale := processChats_not_resolvable env channel msg hex c rest st false []
  rw [← hcs] at hstale
  split
  next ok2 st2 att hpc2 => rw [hstale] at hpc2; cases hpc2
  next st2 att hpc2 =>
    rw [hstale] at hpc2
    injection hpc2 with e1 e2
    subst e1; subst e2
    split
    next newId2 hloc2 =>
      rw [hloc] at hloc2
      injection hloc2 with e3
      subst e3
      rw [if_pos ⟨h0, hm⟩]
      simp
    next hloc2 => rw [hloc] at hloc2; cases hloc2

/-! ### C2, C3, C9 -/

/-- C2.  When the recorded item is stale (its forward raises not-found) and
there is at least one destination, the locator is invoked exactly once; if it
returns a (fresh) id, that id is recorded as the last-seen message of the channel
and the whole operation is retried with it (the returned boolean is the
retry), and if it returns `none` the operation returns `false` with the
last-seen table untouched. -/
theorem stale_item_locator_retry (env : Env) (st : Store) (channel : String)
    (msg : Nat) (hne : st.target_chats ≠ [])
    (hex : env.exMsg channel msg = false) :
    (forward_and_pin_message env st channel msg).locCalls = 1 ∧
    (∀ newId, find_latest_message (env.exMsg channel) (some msg) = some newId →
      getVal (forward_and_pin_message env st channel msg).store.last_messages
          channel = some newId ∧
      (forward_and_pin_message env st channel msg).ok =
        (forward_and_pin_message env
          { st with last_messages := save_last_message st.last_messages channel newId }
          channel newId).ok) ∧
    (find_latest_message (env.exMsg channel) (some msg) = none →
      (forward_and_pin_message env st channel msg).ok = false ∧
      (forward_and_pin_message env st channel msg).store.last_messages =
        st.last_messages) := by
  obtain ⟨c, rest, hcs⟩ := List.exists_cons_of_ne_nil hne
  cases hloc : find_latest_message (env.exMsg channel) (some msg) with
  | none =>
    rw [fwdpin_stale_none env st channel msg c rest hcs hex hloc]
    refine ⟨rfl, ?_, fun _ => ⟨rfl, rfl⟩⟩
    intro newId h'
    exact Option.noConfusion h'
  | some v =>
    have hv := find_latest_message_some (env.exMsg channel) (some msg) v hloc
    have h0 : v ≠ 0 := by omega
    have hm : v ≠ msg := fun h => by rw [h, hex] at hv; cases hv.1
    rw [fwdpin_stale_some env st channel msg c rest v hcs hex hloc h0 hm]
    have hres := fwdpin_resolvable env
      { st with last_messages := save_last_message st.last_messages channel v }
      channel v hv.1
    refine ⟨by rw [hres.1], ?_, ?_⟩
    · intro newId h'
      injection h' with e
      subst e
      refine ⟨?_, rfl⟩
      show getVal (forward_and_pin_message env
          { st with last_messages := save_last_message st.last_messages channel v }
          channel v).store.last_messages channel = some v
      rw [hres.2.1]
      exact getVal_upsert_self st.last_messages channel v
    · intro h'
      exact Option.noConfusion h'

/-- C3.  Per-destination errors are isolated: whenever the item resolves
(directly, or after the locator found a replacement id), every registered
destination is attempted no matter which per-chat forward/pin/unpin errors
the transport injects; only total failure to resolve the item after the
single locator retry makes the call report a feed-level failure. -/
theorem destination_errors_isolated (env : Env) (st : Store) (channel : String)
    (msg : Nat) :
    (env.exMsg channel msg = true →
      ∀ chat ∈ st.target_chats,
        chat ∈ (forward_and_pin_message env st channel msg).attempted) ∧
    (env.exMsg channel msg = false → st.target_chats ≠ [] →
      (∀ newId, find_latest_message (env.exMsg channel) (some msg) = some newId →
        ∀ chat ∈ st.target_chats,
          chat ∈ (forward_and_pin_message env st channel msg).attempted) ∧
      (find_latest_message (env.exMsg channel) (some msg) = none →
        (forward_and_pin_message env st channel msg).ok = false)) := by
  constructor
  · intro hex chat hchat
    have hne : st.target_chats ≠ [] := by
      intro h; rw [h] at hchat; cases hchat
    rw [(fwdpin_resolvable env st channel msg hex).2.2 hne]
    exact hchat
  · intro hex hne
    obtain ⟨c, rest, hcs⟩ := List.exists_cons_of_ne_nil hne
    constructor
    · intro newId hloc chat hchat
      have hv := find_latest_message_some (env.exMsg channel) (some msg) newId hloc
      have h0 : newId ≠ 0 := by omega
      have hm : newId ≠ msg := fun h => by rw [h, hex] at hv; cases hv.1
      rw [fwdpin_stale_some env st channel msg c rest newId hcs hex hloc h0 hm]
      have hres := fwdpin_resolvable env
        { st with last_messages := save_last_message st.last_messages channel newId }
        channel newId hv.1
      have hatt := hres.2.2 hne
      show chat ∈ [c] ++ (forward_and_pin_message env
        { st with last_messages := save_last_message st.last_messages channel newId }
        channel newId).attempted
      rw [hatt]
      exact List.mem_append.mpr (Or.inr hchat)
    · intro hloc
      rw [fwdpin_stale_none env st channel msg c rest hcs hex hloc]

/-- C9.  With an empty destination list, `forward_and_pin_message` returns
`false` immediately and the store (last-seen, pinned and forward-log tables
alike) is returned unchanged: no write is performed. -/
theorem empty_targets_no_writes (env : Env) (st : Store) (channel : String)
    (msg : Nat) (h : st.target_chats = []) :
    forward_and_pin_message env st channel msg = ⟨false, st, [], 0⟩ :=
  fwdpin_empty env st channel msg h

/-! ### Witness inputs for the relay-engine claims -/

/-- Concrete transport: only message 100 of any channel resolves, forwarding
into chat 1 raises a transient error, pin/unpin succeed. -/
def envA : Env :=
  { exMsg := fun _ m => m == 100
    fwdErr := fun c => c == 1
    pinErr := fun _ => false
    unpinErr := fun _ => false
    fwdId := fun _ _ => 500 }

/-- Concrete store with two destinations and a stale last-seen id. -/
def storeA : Store :=
  { target_chats := [1, 2]
    last_messages := [("c", 5)]
    pinned_messages := []
    forward_stats := [] }

/-- Concrete store with no destinations. -/
def storeE : Store :=
  { target_chats := []
    last_messages := [("c", 5)]
    pinned_messages := [(7, 9)]
    forward_stats := [3] }

/-- Witness for C2: with destinations `[1, 2]` and the stale id 5 (only id
100 resolves), the call invokes the locator exactly once. -/
theorem stale_item_locator_retry_witness :
    storeA.target_chats ≠ [] ∧ envA.exMsg "c" 5 = false ∧
    (forward_and_pin_message envA storeA "c" 5).locCalls = 1 :=
  ⟨by decide, by decide,
    (stale_item_locator_retry envA storeA "c" 5 (by decide) (by decide)).1⟩

/-- Witness for C3: even though forwarding into chat 1 raises a transient
error, chat 2 is still attempted. -/
theorem destination_errors_isolated_witness :
    envA.exMsg "c" 100 = true ∧ (2 : Int) ∈ storeA.target_chats ∧
    (2 : Int) ∈ (forward_and_pin_message envA storeA "c" 100).attempted :=
  ⟨by decide, by decide,
    (destination_errors_isolated envA storeA "c" 100).1 (by decide) 2 (by decide)⟩

/-- Witness for C9: the empty-destination call returns `false` and the
exact input store. -/
theorem empty_targets_no_writes_witness :
    storeE.target_chats = [] ∧
    forward_and_pin_message envA storeE "c" 5 =
      ⟨false, storeE, [], 0⟩ :=
  ⟨rfl, empty_targets_no_writes envA storeE "c" 5 rfl⟩

/-! ## bot.py state machine and its background rotation task
(`bot.py:1485-1740`)

`asyncio` tasks: `Task.cancel()` only *requests* cancellation; `Task.done()`
stays `False` until the event loop has actually run the task to completion.
`update_interval` and the except-branch of `_channel_rotation` run without an
intervening suspension of the task they inspect, so the task they just
cancelled (resp. the currently-executing task itself) is never `done` at the
moment `_start_rotation_task` checks its guard. -/

inductive TaskStatus where
  | running
  | cancelRequested
  | finished
deriving DecidableEq

structure Task where
  id : Nat
  status : TaskStatus
deriving DecidableEq

/-- The fields of `RunningState` (bot.py:1635-1648) that matter here. -/
structure RotState where
  interval : Nat
  rotation_task : Option Task
  last_index : Int
deriving DecidableEq

inductive MState where
  | idle
  | running (rs : RotState)
deriving DecidableEq

/-- The whole engine: current state object plus a fresh-id counter counting
how many tasks have ever been created. -/
structure Sys where
  state : MState
  nextTaskId : Nat
deriving DecidableEq

/-- Model of `RunningState._start_rotation_task` (bot.py:1650-1653): create a new task
only `if not self._rotation_task or self._rotation_task.done()`. -/
def start_rotation_task (n : Nat) (rs : RotState) : RotState × Nat :=
  match rs.rotation_task with
  | none => ({ rs with rotation_task := some ⟨n, .running⟩ }, n + 1)
  | some t =>
    if t.status = .finished then ({ rs with rotation_task := some ⟨n, .running⟩ }, n + 1)
    else (rs, n)

/-- Model of `RunningState.__init__` (bot.py:1638-1648): index starts at -1, no task
yet, then `_start_rotation_task`. -/
def mkRunningState (interval n : Nat) : RotState × Nat :=
  start_rotation_task n { interval := interval, rotation_task := none, last_index := -1 }

/-- Model of `BotContext.start` → `IdleState.start` / `RunningState.start`
(bot.py:1626-1629, 1670-1672): starting from Idle builds a `RunningState`
(which schedules its task); starting an already-running engine is `pass`. -/
def startCmd (cfgInterval : Nat) (s : Sys) : Sys :=
  match s.state with
  | .idle =>
    let p := mkRunningState cfgInterval s.nextTaskId
    ⟨.running p.1, p.2⟩
  | .running _ => s

/-- Model of `BotContext.stop` → `IdleState.stop` / `RunningState.stop`
(bot.py:1631-1633, 1674-1679): stopping an idle engine is `pass`; stopping a
running one cancels the task and installs `IdleState`. -/
def stopCmd (s : Sys) : Sys :=
  match s.state with
  | .idle => s
  | .running _ => ⟨.idle, s.nextTaskId⟩

/-- Model of `RunningState.update_interval` (bot.py:1655-1668): store the new
interval, request cancellation of a live task, then call
`_start_rotation_task`. -/
def update_interval (newInterval : Nat) (s : Sys) : Sys :=
  match s.state with
  | .idle => s
  | .running rs =>
    let rs1 := { rs with interval := newInterval }
    let rs2 :=
      match rs1.rotation_task with
      | some t =>
        if t.status ≠ .finished then
          { rs1 with rotation_task := some { t with status := .cancelRequested } }
        else rs1
      | none => rs1
    let p := start_rotation_task s.nextTaskId rs2
    ⟨.running p.1, p.2⟩

/-- After the except-branch returns, the coroutine of the task `selfId`
finishes. -/
def finish_self (selfId : Nat) (rs : RotState) : RotState :=
  match rs.rotation_task with
  | some t =>
    if t.id = selfId then { rs with rotation_task := some { t with status := .finished } }
    else rs
  | none => rs

/-- The non-cancellation except-branch of `RunningState._channel_rotation`
(bot.py:1732-1740), executed inside task `selfId`: log, sleep 10s, call
`_start_rotation_task`, then the handler returns and the task finishes. -/
def rotation_error_handler (selfId : Nat) (s : Sys) : Sys :=
  match s.state with
  | .idle => s
  | .running rs =>
    let p := start_rotation_task s.nextTaskId rs
    ⟨.running (finish_self selfId p.1), p.2⟩

/-- Number of tasks referenced by the engine that are still live (running,
not cancel-requested, not finished). -/
def liveTaskCount (s : Sys) : Nat :=
  match s.state with
  | .idle => 0
  | .running rs =>
    match rs.rotation_task with
    | some t => if t.status = .running then 1 else 0
    | none => 0

/-! ### C5, C6, C7 -/

/-- C5 (evidence for the code bug).  `update_interval` on a Running engine
with a live rotation task cancels that task, but the guard of
`_start_rotation_task` then sees the cancelled-but-not-yet-finished task as not done and
creates **no** replacement: the fresh-id counter is unchanged, the only
referenced task is cancel-requested (it will exit at its next suspension
without rotating), and no live task remains — the next rotation never fires,
neither after the new interval nor after the old one.  Only the stored
interval value is updated. -/
theorem update_interval_no_reschedule :
    update_interval 60 ⟨.running ⟨3600, some ⟨0, .running⟩, -1⟩, 1⟩ =
      ⟨.running ⟨60, some ⟨0, .cancelRequested⟩, -1⟩, 1⟩ ∧
    liveTaskCount (update_interval 60 ⟨.running ⟨3600, some ⟨0, .running⟩, -1⟩, 1⟩) = 0 ∧
    (update_interval 60 ⟨.running ⟨3600, some ⟨0, .running⟩, -1⟩, 1⟩).nextTaskId = 1 := by
  refine ⟨?_, ?_, ?_⟩ <;> rfl

/-- C6.  `start()` on Idle creates exactly one rotation task; an immediately
following second `start()` is a no-op (`RunningState.start` is `pass`), so
exactly one live task exists and exactly one task was ever created; `start()`
on Running and `stop()` on Idle are identities. -/
theorem start_idempotent_single_task (cfg n : Nat) (s : Sys) :
    (startCmd cfg (startCmd cfg ⟨.idle, n⟩) = startCmd cfg ⟨.idle, n⟩ ∧
     liveTaskCount (startCmd cfg (startCmd cfg ⟨.idle, n⟩)) = 1 ∧
     (startCmd cfg (startCmd cfg ⟨.idle, n⟩)).nextTaskId = n + 1) ∧
    (∀ rs, s.state = .running rs → startCmd cfg s = s) ∧
    (s.state = .idle → stopCmd s = s) := by
  refine ⟨⟨?_, ?_, ?_⟩, ?_, ?_⟩
  · rfl
  · rfl
  · rfl
  · intro rs h
    cases s with
    | mk st n' => cases st with
      | idle => cases h
      | running rs' => rfl
  · intro h
    cases s with
    | mk st n' => cases st with
      | idle => rfl
      | running rs' => cases h

/-- Witness for C6: two consecutive starts from Idle leave one live task and
a counter of one created task; `start` on the resulting Running engine and
`stop` on the Idle engine are no-ops. -/
theorem start_idempotent_single_task_witness :
    (startCmd 7200 (startCmd 7200 ⟨.idle, 0⟩) = startCmd 7200 ⟨.idle, 0⟩ ∧
     liveTaskCount (startCmd 7200 (startCmd 7200 ⟨.idle, 0⟩)) = 1 ∧
     (startCmd 7200 (startCmd 7200 ⟨.idle, 0⟩)).nextTaskId = 0 + 1) ∧
    startCmd 7200 ⟨.running ⟨7200, some ⟨0, .running⟩, -1⟩, 1⟩ =
      ⟨.running ⟨7200, some ⟨0, .running⟩, -1⟩, 1⟩ ∧
    stopCmd ⟨.idle, 5⟩ = ⟨.idle, 5⟩ := by
  refine ⟨(start_idempotent_single_task 7200 0 ⟨.idle, 0⟩).1, ?_, ?_⟩
  · exact (start_idempotent_single_task 7200 0
      ⟨.running ⟨7200, some ⟨0, .running⟩, -1⟩, 1⟩).2.1 _ rfl
  · exact (start_idempotent_single_task 7200 0 ⟨.idle, 5⟩).2.2 rfl

/-- C7 (evidence for the code bug).  When the rotation task hits an
unexpected error, the except-branch calls `_start_rotation_task` while the
crashed task is still executing (hence not `done`): the guard refuses to
create a replacement, the handler returns, the task finishes — no new task
is created (counter unchanged) and no live task remains although the engine
is still Running.  The rotation capability is silently terminated instead of
supervised-restarted. -/
theorem rotation_error_no_restart :
    rotation_error_handler 0 ⟨.running ⟨7200, some ⟨0, .running⟩, -1⟩, 1⟩ =
      ⟨.running ⟨7200, some ⟨0, .finished⟩, -1⟩, 1⟩ ∧
    liveTaskCount (rotation_error_handler 0 ⟨.running ⟨7200, some ⟨0, .running⟩, -1⟩, 1⟩) = 0 ∧
    (rotation_error_handler 0 ⟨.running ⟨7200, some ⟨0, .running⟩, -1⟩, 1⟩).nextTaskId = 1 := by
  refine ⟨?_, ?_, ?_⟩ <;> rfl

/-! ### Round-robin rotation (`bot.py:1690-1722`)

`self._last_processed_channel_index = (self._last_processed_channel_index
+ 1) % len(source_channels)` with the index starting at `-1`; an empty
channel list hits `continue` before the index update.  The Python operator `%` on a
positive modulus agrees with `Int.emod`. -/

/-- The index update of bot.py:1707. -/
def nextIndex (i : Int) (n : Nat) : Int := (i + 1) % (n : Int)

/-- One wake-up of the rotation loop: skip (index unchanged) when the feed
list is empty, else advance the index modulo the *current* list length and
pick that channel. -/
def rotStep (cs : List String) (i : Int) : Option (Int × String) :=
  if h : cs.length = 0 then none
  else
    some (nextIndex i cs.length,
      cs.get ⟨(nextIndex i cs.length).toNat, by
        have h0 : 0 ≤ nextIndex i cs.length :=
          Int.emod_nonneg _ (by exact_mod_cast h)
        have h1 : nextIndex i cs.length < (cs.length : Int) :=
          Int.emod_lt_of_pos _ (by exact_mod_cast Nat.pos_of_ne_zero h)
        omega⟩)

/-- The index after `k` wake-ups when the feed list visible at wake-up `k`
is `css k` (the list is re-read on every wake-up). -/
def idxSeq (css : Nat → List String) : Nat → Int
  | 0 => -1
  | k + 1 =>
    if (css k).length = 0 then idxSeq css k
    else nextIndex (idxSeq css k) (css k).length

/-- The channel visited at wake-up `k` over a fixed feed list. -/
def visitedChannel (cs : List String) (k : Nat) : Option String :=
  (rotStep cs (idxSeq (fun _ => cs) k)).map Prod.snd

theorem nextIndex_bounds (i : Int) (n : Nat) (h : 0 < n) :
    0 ≤ nextIndex i n ∧ (nextIndex i n).toNat < n := by
  have h0 : 0 ≤ nextIndex i n := Int.emod_nonneg _ (by exact_mod_cast Nat.pos_iff_ne_zero.mp h)
  have h1 : nextIndex i n < (n : Int) := Int.emod_lt_of_pos _ (by exact_mod_cast h)
  exact ⟨h0, by omega⟩

theorem idxSeq_const (cs : List String) (h : cs ≠ []) :
    ∀ k, idxSeq (fun _ => cs) (k + 1) = (k : Int) % (cs.length : Int) := by
  have hn : (0 : Int) < (cs.length : Int) := by
    exact_mod_cast List.length_pos.mpr h
  have hne : cs.length ≠ 0 := by omega
  intro k
  induction k with
  | zero =>
    simp only [idxSeq, hne, if_false, nextIndex]
    norm_num
  | succ k ih =>
    show (if cs.length = 0 then idxSeq (fun _ => cs) (k + 1)
      else nextIndex (idxSeq (fun _ => cs) (k + 1)) cs.length) = _
    rw [if_neg hne, ih]
    unfold nextIndex
    rw [Int.add_emod ((k : Int) % (cs.length : Int)) 1,
      Int.emod_emod_of_dvd _ dvd_rfl, ← Int.add_emod]
    push_cast
    ring_nf

/-- C8.  Over a fixed feed list the rotation task visits the feeds in
round-robin order starting at index 0 (`cs.get (k % length)` at the `k`-th
wake-up), and — because the index is reduced modulo the feed-list length
current at the moment of use — whatever the past history of list mutations
(`idxSeq` over an arbitrary sequence of lists), the access index is always
in range of the current list. -/
theorem round_robin_mod_length :
    (∀ (cs : List String) (h : cs ≠ []) (k : Nat),
      visitedChannel cs k =
        some (cs.get ⟨k % cs.length, Nat.mod_lt _ (List.length_pos.mpr h)⟩)) ∧
    (∀ (css : Nat → List String) (k : Nat), 0 < (css k).length →
      0 ≤ nextIndex (idxSeq css k) (css k).length ∧
      (nextIndex (idxSeq css k) (css k).length).toNat < (css k).length) := by
  constructor
  · intro cs h k
    have hne : cs.length ≠ 0 := by
      have := List.length_pos.mpr h; omega
    have hidx : nextIndex (idxSeq (fun _ => cs) k) cs.length =
        ((k % cs.length : Nat) : Int) := by
      have h1 : idxSeq (fun _ => cs) (k + 1) =
          nextIndex (idxSeq (fun _ => cs) k) cs.length := by
        show (if cs.length = 0 then idxSeq (fun _ => cs) k
          else nextIndex (idxSeq (fun _ => cs) k) cs.length) = _
        rw [if_neg hne]
      rw [← h1, idxSeq_const cs h k]
      norm_cast
    unfold visitedChannel rotStep
    rw [dif_neg hne]
    simp only [Option.map_some', Option.some.injEq]
    congr 1
    apply Fin.ext
    show (nextIndex (idxSeq (fun _ => cs) k) cs.length).toNat = k % cs.length
    rw [hidx]
    omega
  · intro css k h
    exact nextIndex_bounds (idxSeq css k) (css k).length h

/-- Witness for C8: over feeds `[A, B, C]` the 5th wake-up (index 4) visits
`B` (= `4 % 3`), and whatever the index history over the two-feed list, the
access index is in range. -/
theorem round_robin_mod_length_witness :
    (["A", "B", "C"] ≠ ([] : List String)) ∧
    visitedChannel ["A", "B", "C"] 4 =
      some ((["A", "B", "C"] : List String).get ⟨4 % 3, by decide⟩) ∧
    0 < ([ "A", "B" ] : List String).length ∧
    (nextIndex (idxSeq (fun _ => ["A", "B"]) 9) 2).toNat < 2 :=
  ⟨by decide,
   round_robin_mod_length.1 ["A", "B", "C"] (by decide) 4,
   by decide,
   (round_robin_mod_length.2 (fun _ => ["A", "B"]) 9 (by decide)).2⟩

/-! ## `RunningState.stop` and `_unpin_current_messages`
(`utils/bot_state.py:199-251`)

`stop()` cancels and awaits the schedule task (so it is finished
afterwards), runs `_unpin_current_messages` — a per-chat loop where a
"message not found"-class unpin error deletes the stale record, any other
unpin error is only logged (each chat in its own try/except) — notifies the
admins and installs `IdleState`. -/

/-- Outcome of `bot.unpin_chat_message` in a chat. -/
inductive UnpinRes where
  | ok
  | notFound
  | otherErr
deriving DecidableEq

/-- Transport oracle for the unpin sweep. -/
structure BEnv where
  unpinRes : Int → UnpinRes

/-- The body of the `for chat_id in target_chats` loop of
`_unpin_current_messages` (bot_state.py:203-224): look up the pinned record;
if present attempt the unpin, deleting the record on success or on a
not-found error, keeping it on any other error.  The boolean reports whether
an unpin was attempted in this chat. -/
def unpin_step (env : BEnv) (st : Store) (chat : Int) : Store × Bool :=
  match getVal st.pinned_messages chat with
  | none => (st, false)
  | some _ =>
    match env.unpinRes chat with
    | .ok =>
      ({ st with pinned_messages := delete_pinned_message st.pinned_messages chat }, true)
    | .notFound =>
      ({ st with pinned_messages := delete_pinned_message st.pinned_messages chat }, true)
    | .otherErr => (st, true)

/-- The whole unpin sweep, threading the store and collecting the chats in
which an unpin was attempted. -/
def unpinLoop (env : BEnv) : List Int → Store → List Int → Store × List Int
  | [], st, att => (st, att)
  | c :: rest, st, att =>
    unpinLoop env rest (unpin_step env st c).1
      (if (unpin_step env st c).2 then att ++ [c] else att)

/-- Model of `RunningState._unpin_current_messages` (bot_state.py:199-226). -/
def unpin_current_messages (env : BEnv) (st : Store) : Store × List Int :=
  unpinLoop env st.target_chats st []

/-- Observable effects of one `RunningState.stop` call. -/
structure StopResult where
  idle : Bool
  store : Store
  attempts : List Int
  task : Option Task

/-- Model of `RunningState.stop` (bot_state.py:232-251): cancel and await the
schedule task, run the unpin sweep, notify admins (external), install
`IdleState`. -/
def running_stop (env : BEnv) (st : Store) (task : Option Task) : StopResult :=
  let task2 :=
    match task with
    | some t => if t.status ≠ .finished then some { t with status := .finished } else some t
    | none => none
  let p := unpin_current_messages env st
  { idle := true, store := p.1, attempts := p.2, task := task2 }

theorem find?_cons_pos {α : Type} (p : α → Bool) (a : α) (l : List α)
    (h : p a = true) : List.find? p (a :: l) = some a := by
  simp [List.find?, h]

theorem find?_cons_neg {α : Type} (p : α → Bool) (a : α) (l : List α)
    (h : p a = false) : List.find? p (a :: l) = List.find? p l := by
  simp [List.find?, h]

theorem getVal_delete_ne (rows : List (Int × Nat)) (c chat : Int)
    (hne : chat ≠ c) :
    getVal (delete_pinned_message rows c) chat = getVal rows chat := by
  unfold getVal delete_pinned_message
  induction rows with
  | nil => rfl
  | cons r t ih =>
    by_cases hr : r.1 = c
    · have h1 : (!(r.1 == c)) = false := by simp [hr]
      have h2 : (r.1 == chat) = false := by
        simp only [beq_eq_false_iff_ne, ne_eq, hr]
        exact Ne.symm hne
      rw [List.filter_cons]
      simp only [h1, Bool.false_eq_true, if_false]
      rw [find?_cons_neg _ r t h2]
      exact ih
    · have h1 : (!(r.1 == c)) = true := by simp [hr]
      rw [List.filter_cons]
      simp only [h1, if_true]
      cases hc : (r.1 == chat) with
      | true =>
        rw [find?_cons_pos _ r _ hc, find?_cons_pos _ r t hc]
      | false =>
        rw [find?_cons_neg _ r _ hc, find?_cons_neg _ r t hc]
        exact ih

theorem unpin_step_preserve (env : BEnv) (st : Store) (c chat : Int)
    (hne : chat ≠ c) :
    getVal (unpin_step env st c).1.pinned_messages chat =
      getVal st.pinned_messages chat := by
  unfold unpin_step
  cases hv : getVal st.pinned_messages c
  · rfl
  · cases env.unpinRes c
    · exact getVal_delete_ne st.pinned_messages c chat hne
    · exact getVal_delete_ne st.pinned_messages c chat hne
    · rfl

theorem unpin_step_attempted (env : BEnv) (st : Store) (c : Int)
    (h : (getVal st.pinned_messages c).isSome) :
    (unpin_step env st c).2 = true := by
  unfold unpin_step
  cases hv : getVal st.pinned_messages c
  · rw [hv] at h; cases h
  · cases env.unpinRes c <;> rfl

theorem unpinLoop_att_mono (env : BEnv) :
    ∀ (chats : List Int) (st : Store) (att : List Int) (x : Int),
      x ∈ att → x ∈ (unpinLoop env chats st att).2 := by
  intro chats
  induction chats with
  | nil => intro st att x h; exact h
  | cons c rest ih =>
    intro st att x h
    show x ∈ (unpinLoop env rest (unpin_step env st c).1
      (if (unpin_step env st c).2 then att ++ [c] else att)).2
    by_cases hb : (unpin_step env st c).2 = true
    · rw [if_pos hb]
      exact ih _ _ x (List.mem_append.mpr (Or.inl h))
    · rw [if_neg hb]
      exact ih _ _ x h

theorem unpinLoop_mem (env : BEnv) :
    ∀ (chats : List Int) (st : Store) (att : List Int) (chat : Int),
      chat ∈ chats → (getVal st.pinned_messages chat).isSome →
      chat ∈ (unpinLoop env chats st att).2 := by
  intro chats
  induction chats with
  | nil => intro st att chat h _; cases h
  | cons c rest ih =>
    intro st att chat hmem hsome
    show chat ∈ (unpinLoop env rest (unpin_step env st c).1
      (if (unpin_step env st c).2 then att ++ [c] else att)).2
    by_cases hcc : chat = c
    · subst hcc
      rw [if_pos (unpin_step_attempted env st chat hsome)]
      exact unpinLoop_att_mono env rest _ _ chat (List.mem_append.mpr (Or.inr (by simp)))
    · have hmem' : chat ∈ rest := by
        rcases List.mem_cons.mp hmem with h | h
        · exact absurd h hcc
        · exact h
      have hsome' : (getVal (unpin_step env st c).1.pinned_messages chat).isSome := by
        rw [unpin_step_preserve env st c chat hcc]
        exact hsome
      by_cases hb : (unpin_step env st c).2 = true
      · rw [if_pos hb]; exact ih _ _ chat hmem' hsome'
      · rw [if_neg hb]; exact ih _ _ chat hmem' hsome'

/-- C4.  `RunningState.stop` always completes with the state transitioned to
Idle; the (awaited) background task ends finished; and an unpin is attempted
at every destination holding a pinned record, no matter which of the destination
unpin calls fail — a failure at one destination does not prevent the attempt
at the others. -/
theorem stop_unpins_all_and_idles (env : BEnv) (st : Store) (t : Task) :
    (running_stop env st (some t)).idle = true ∧
    (∀ chat ∈ st.target_chats, (getVal st.pinned_messages chat).isSome →
      chat ∈ (running_stop env st (some t)).attempts) ∧
    (∀ t', (running_stop env st (some t)).task = some t' →
      t'.status = .finished) := by
  refine ⟨rfl, ?_, ?_⟩
  · intro chat hmem hsome
    show chat ∈ (unpinLoop env st.target_chats st []).2
    exact unpinLoop_mem env st.target_chats st [] chat hmem hsome
  · intro t' h
    by_cases ht : t.status = .finished
    · have : (running_stop env st (some t)).task = some t := by
        show (if t.status ≠ .finished then some { t with status := .finished }
          else some t) = some t
        rw [if_neg (by simp [ht])]
      rw [this] at h
      injection h with e
      subst e
      exact ht
    · have : (running_stop env st (some t)).task =
          some { t with status := .finished } := by
        show (if t.status ≠ .finished then some { t with status := .finished }
          else some t) = some { t with status := .finished }
        rw [if_pos ht]
      rw [this] at h
      injection h with e
      subst e
      rfl

/-- Transport for the C4 witness: unpin fails with an opaque error in chat
10 and succeeds in chat 20. -/
def benvW : BEnv := { unpinRes := fun c => if c = 10 then .otherErr else .ok }

/-- Store for the C4 witness: two destinations, both holding a pinned
record. -/
def storeW : Store :=
  { target_chats := [10, 20]
    last_messages := []
    pinned_messages := [(10, 5), (20, 7)]
    forward_stats := [] }

/-- Witness for C4: even though the unpin throws in chat 10, both chats are
attempted and stop completes with Idle. -/
theorem stop_unpins_all_and_idles_witness :
    (running_stop benvW storeW (some ⟨0, .running⟩)).idle = true ∧
    (10 : Int) ∈ (running_stop benvW storeW (some ⟨0, .running⟩)).attempts ∧
    (20 : Int) ∈ (running_stop benvW storeW (some ⟨0, .running⟩)).attempts :=
  ⟨(stop_unpins_all_and_idles benvW storeW ⟨0, .running⟩).1,
   (stop_unpins_all_and_idles benvW storeW ⟨0, .running⟩).2.1 10 (by decide) (by decide),
   (stop_unpins_all_and_idles benvW storeW ⟨0, .running⟩).2.1 20 (by decide) (by decide)⟩

end Zakrep
